import Mathlib

/-!
Verification of the changed-file selection and multi-tool style-check
orchestrator of the Spack repository, as specified for the `spack style`
command.  The orchestrator implementation itself is not part of the
source excerpt (only its test suite is), so the definitions below are
modelled from the specification of its four components: the VCS diff
resolver (`changed_files`), the path/root normalizer (`resolve_targets`),
the tool runner (`run_tool`/`run_tools`) and the result aggregator and
reporter (`style_report`/`style_command`).
-/

namespace SpackStyle

/-- `strHasPre pre s` holds when the string `pre` is a leading segment of
`s` (compared on the underlying character lists). -/
def strHasPre (pre s : String) : Bool :=
  decide (pre.data <+: s.data)

/-- Result of a command stage that may terminate the whole invocation:
either a value, or process termination with a message printed to standard
error and an exit code. -/
inductive CmdResult (α : Type) where
  | ok : α → CmdResult α
  | exit : String → Nat → CmdResult α
deriving DecidableEq, Repr

/-- Modelled from the spec: the state of the version-controlled
repository visible to the VCS diff resolver — the valid base references
(branches), the version-controlled file paths (expressed relative to the
repository root, as the underlying VCS query reports them) and, for each
base reference, which files differ between the working tree and that
base. -/
structure GitRepo where
  branches : List String
  tracked : List String
  differs : String → String → Bool

/-- Modelled from the spec: the diagnostic printed when the base
reference does not resolve. -/
def noBranchMsg (base : String) : String :=
  "This repository does not have a '" ++ base ++ "' branch."

/-- Modelled from the spec (the VCS diff resolver is absent from the
excerpt): `changed_files base all_files` returns, when `all_files` is
true, every version-controlled file except those under the
vendored subtree, deduplicated; otherwise the files differing between
the working tree and `base`, under the same invariant.  An invalid base
reference terminates the invocation with a diagnostic on standard error
and a non-zero exit code. -/
def changed_files (repo : GitRepo) (vendored : String)
    (base : String) (all_files : Bool) : CmdResult (List String) :=
  if all_files then
    .ok ((repo.tracked.filter (fun f => !(strHasPre vendored f))).dedup)
  else if repo.branches.contains base then
    .ok ((repo.tracked.filter
      (fun f => repo.differs base f && !(strHasPre vendored f))).dedup)
  else
    .exit (noBranchMsg base) 1

/-- Outcome classification of one tool: it ran and passed, it ran and
reported findings, or its executable was absent and it was skipped. -/
inductive ToolStatus where
  | passed
  | failed
  | skipped
deriving DecidableEq, Repr

/-- Modelled from the spec: the result recorded for one external tool —
its name, the file set it was actually invoked on (empty for a skipped
tool, which is never invoked), its raw output text, and its status. -/
structure ToolResult where
  tool : String
  files : List String
  output : String
  status : ToolStatus
deriving DecidableEq, Repr

/-- A tool result is non-failing (a passing run, or a neutral skip). -/
def ToolResult.succeeded (r : ToolResult) : Bool :=
  match r.status with
  | .failed => false
  | _ => true

/-- Modelled from the spec: the subprocess environment the tool runner
sees — which executables are present on the search path, and the raw
output text and exit code each tool produces on a given file set. -/
structure ToolEnv where
  installed : String → Bool
  run : String → List String → String × Nat

/-- Modelled from the spec (the tool runner is absent from the excerpt):
invoke one tool on the resolved file set.  A tool whose executable is
absent is recorded as a neutral skip; otherwise its exit status is
normalized into a pass/fail signal and its output captured verbatim. -/
def run_tool (tenv : ToolEnv) (files : List String) (name : String) :
    ToolResult :=
  if tenv.installed name then
    let res := tenv.run name files
    { tool := name, files := files, output := res.1,
      status := if res.2 = 0 then .passed else .failed }
  else
    { tool := name, files := [], output := name ++ " is not installed.",
      status := .skipped }

/-- Modelled from the spec: run every enabled tool, each independently of
the others, collecting one result per tool. -/
def run_tools (tenv : ToolEnv) (tools : List String)
    (files : List String) : List ToolResult :=
  tools.map (run_tool tenv files)

/-- Modelled from the spec: the enabled tools — a style checker, an
import-sorter, a type checker, and (when the `--black` flag is given)
the formatter. -/
def tool_names (black : Bool) : List String :=
  ["isort", "mypy"] ++ (if black then ["black"] else []) ++ ["flake8"]

/-- Did any enabled tool fail? -/
def any_failed (results : List ToolResult) : Bool :=
  results.any (fun r => !(r.succeeded))

/-- Did the formatter specifically find issues? -/
def black_failed (results : List ToolResult) : Bool :=
  results.any (fun r => r.tool == "black" && !(r.succeeded))

/-- The report line printed on full success. -/
def cleanMsg : String := "spack style checks were clean"

/-- The report line printed on failure. -/
def errorsMsg : String := "spack style found errors"

/-- The report line printed when the formatter found issues. -/
def blackErrorsMsg : String := "black found errors"

/-- Modelled from the spec (the result aggregator is absent from the
excerpt): the consolidated report, as the list of printed lines — the
resolved file paths, each tool's raw output verbatim, then the verdict:
`spack style checks were clean` on full success, otherwise
`spack style found errors`, preceded by `black found errors` when the
formatter specifically found issues. -/
def style_report (targets : List String) (results : List ToolResult) :
    List String :=
  targets ++ results.map ToolResult.output ++
    (if any_failed results then
      (if black_failed results then [blackErrorsMsg] else []) ++ [errorsMsg]
    else [cleanMsg])

/-- `reportContains report s` holds when `s` occurs in the report text:
it is a contiguous segment of some printed line. -/
def reportContains (report : List String) (s : String) : Prop :=
  ∃ line ∈ report, s.data <:+: line.data

/-- The arguments of one invocation of the style command. -/
structure StyleArgs where
  files : List String
  base : String
  root : String
  black : Bool
  fail_on_error : Bool
deriving DecidableEq, Repr

/-- Convert a path to absolute form under the given root. -/
def absolutize (root p : String) : String :=
  if strHasPre "/" p then p else root ++ "/" ++ p

/-- Modelled from the spec (the path/root normalizer is absent from the
excerpt): determine the target files.  If explicit paths are given, use
exactly those; otherwise consult the VCS diff resolver for the changed
files.  Either way the paths are converted to absolute form using the
root (the real repository root, or the `--root` override). -/
def resolve_targets (repo : GitRepo) (vendored : String)
    (args : StyleArgs) : CmdResult (List String) :=
  if args.files.isEmpty then
    match changed_files repo vendored args.base false with
    | .ok l => .ok (l.map (absolutize args.root))
    | .exit m c => .exit m c
  else
    .ok (args.files.map (absolutize args.root))

/-- The observable outcome of one invocation of the style command: the
report lines, the standard-error lines, the return-code attribute
visible to the caller, whether the process was terminated, and whether
an ordinary exception propagated. -/
structure StyleOutcome where
  report : List String
  stderr : List String
  returncode : Nat
  terminated : Bool
  raised : Bool
deriving DecidableEq, Repr

/-- The informational line printed on interpreters older than 3.6. -/
def oldPythonMsg : String := "spack style requires Python 3.6 or higher"

/-- Is the interpreter older than version 3.6? -/
def pyTooOld (major minor : Nat) : Bool :=
  major < 3 || (major == 3 && minor < 6)

/-- Modelled from the spec (the style command is absent from the
excerpt): one invocation.  On an interpreter older than 3.6 the command
degrades to a reported failure.  Otherwise resolve the targets (an
invalid base reference terminates the invocation from that stage), run
every enabled tool, and aggregate: the return code is non-zero exactly
when some tool failed, and `fail_on_error` controls whether a non-zero
return code additionally terminates the process. -/
def style_command (repo : GitRepo) (tenv : ToolEnv) (vendored : String)
    (pymajor pyminor : Nat) (args : StyleArgs) : StyleOutcome :=
  if pyTooOld pymajor pyminor then
    { report := [oldPythonMsg], stderr := [], returncode := 1,
      terminated := args.fail_on_error, raised := false }
  else
    match resolve_targets repo vendored args with
    | .exit m c =>
      { report := [], stderr := [m], returncode := c,
        terminated := true, raised := false }
    | .ok targets =>
      let results := run_tools tenv (tool_names args.black) targets
      let code := if any_failed results then 1 else 0
      { report := style_report targets results, stderr := [],
        returncode := code,
        terminated := args.fail_on_error && code != 0, raised := false }

/-- A small concrete repository used to exercise the definitions. -/
def sampleRepo : GitRepo :=
  { branches := ["develop"],
    tracked := ["lib/a.py", "lib/b.py", "lib/spack/external/x.py", "lib/a.py"],
    differs := fun _ f => f == "lib/a.py" }

/-- The vendored subtree of the sample repository. -/
def sampleVendored : String := "lib/spack/external"

/-- A tool environment where every executable is present and passes. -/
def toolsAllPass : ToolEnv :=
  { installed := fun _ => true, run := fun _ _ => ("all good", 0) }

/-- A tool environment where every executable is present and fails. -/
def toolsAllFail : ToolEnv :=
  { installed := fun _ => true, run := fun _ _ => ("found problems", 1) }

/-- A tool environment where the type checker is absent. -/
def toolsNoMypy : ToolEnv :=
  { installed := fun n => n != "mypy", run := fun _ _ => ("all good", 0) }

/-- Sample invocation arguments with one explicit file. -/
def sampleArgs : StyleArgs :=
  { files := ["lib/a.py"], base := "develop", root := "/repo",
    black := true, fail_on_error := false }

/-- Sample invocation arguments with no explicit files. -/
def sampleArgsNoFiles : StyleArgs :=
  { files := [], base := "develop", root := "/repo",
    black := false, fail_on_error := false }

/-- Modelled from the spec: the verbatim shape of the style checker's
unused-import finding for a given path. -/
def flake8_unused_import (path : String) : String :=
  path ++ ": [F401] 'os' imported but unused"

theorem strHasPre_append (a b : String) : strHasPre a (a ++ b) = true := by
  simp only [strHasPre, decide_eq_true_eq]
  exact ⟨b.data, (String.data_append a b).symm⟩

theorem absolutize_rel (root p : String) (h : strHasPre "/" p = false) :
    absolutize root p = root ++ "/" ++ p := by
  simp [absolutize, h]

theorem changed_files_mem (repo : GitRepo) (vendored base : String)
    (all_files : Bool) (l : List String)
    (hok : changed_files repo vendored base all_files = CmdResult.ok l) :
    ∀ p ∈ l, p ∈ repo.tracked ∧ strHasPre vendored p = false := by
  intro p hp
  cases all_files with
  | true =>
    have hok' : (repo.tracked.filter (fun f => !(strHasPre vendored f))).dedup
        = l := by simpa [changed_files] using hok
    subst hok'
    rw [List.mem_dedup, List.mem_filter] at hp
    exact ⟨hp.1, by simpa using hp.2⟩
  | false =>
    by_cases hb : base ∈ repo.branches
    · have hok' : (repo.tracked.filter
          (fun f => repo.differs base f && !(strHasPre vendored f))).dedup
          = l := by simpa [changed_files, hb] using hok
      subst hok'
      rw [List.mem_dedup, List.mem_filter] at hp
      refine ⟨hp.1, ?_⟩
      have := hp.2
      simp only [Bool.and_eq_true, Bool.not_eq_true'] at this
      exact this.2
    · simp [changed_files, hb] at hok

theorem succeeded_all_iff (results : List ToolResult) :
    any_failed results = false ↔ ∀ r ∈ results, r.succeeded = true := by
  simp [any_failed]

theorem any_failed_of_black (results : List ToolResult)
    (h : black_failed results = true) : any_failed results = true := by
  simp only [black_failed, List.any_eq_true, Bool.and_eq_true] at h
  obtain ⟨r, hr, _, hs⟩ := h
  simp only [any_failed, List.any_eq_true]
  exact ⟨r, hr, hs⟩

/-- C1: for every base reference that does not resolve to a valid
branch, `changed_files base` prints the diagnostic
`This repository does not have a '<base>' branch.` to standard error and
terminates the invocation with a non-zero exit, never returning a
ChangeSet. -/
theorem changed_files_no_base (repo : GitRepo) (vendored base : String)
    (h : base ∉ repo.branches) :
    (∃ code, changed_files repo vendored base false
        = CmdResult.exit (noBranchMsg base) code ∧ code ≠ 0)
    ∧ ∀ l, changed_files repo vendored base false ≠ CmdResult.ok l := by
  constructor
  · exact ⟨1, by simp [changed_files, h], one_ne_zero⟩
  · intro l
    simp [changed_files, h]

theorem changed_files_no_base_witness :
    (∃ code, changed_files sampleRepo sampleVendored "foobar" false
        = CmdResult.exit (noBranchMsg "foobar") code ∧ code ≠ 0)
    ∧ ∀ l, changed_files sampleRepo sampleVendored "foobar" false
        ≠ CmdResult.ok l :=
  changed_files_no_base sampleRepo sampleVendored "foobar" (by decide)

/-- C5: for every valid base reference, the paths returned with
`all_files = true` are a superset of those returned with
`all_files = false`. -/
theorem changed_files_all_superset (repo : GitRepo) (vendored base : String)
    (h : base ∈ repo.branches) :
    ∃ l₁ l₂, changed_files repo vendored base false = CmdResult.ok l₁ ∧
      changed_files repo vendored base true = CmdResult.ok l₂ ∧
      ∀ p ∈ l₁, p ∈ l₂ := by
  refine ⟨(repo.tracked.filter
      (fun f => repo.differs base f && !(strHasPre vendored f))).dedup,
    (repo.tracked.filter (fun f => !(strHasPre vendored f))).dedup,
    by simp [changed_files, h], by simp [changed_files], ?_⟩
  intro p hp
  rw [List.mem_dedup, List.mem_filter] at hp ⊢
  refine ⟨hp.1, ?_⟩
  have := hp.2
  simp only [Bool.and_eq_true] at this
  exact this.2

theorem changed_files_all_superset_witness :
    ∃ l₁ l₂,
      changed_files sampleRepo sampleVendored "develop" false
        = CmdResult.ok l₁ ∧
      changed_files sampleRepo sampleVendored "develop" true
        = CmdResult.ok l₂ ∧
      ∀ p ∈ l₁, p ∈ l₂ :=
  changed_files_all_superset sampleRepo sampleVendored "develop" (by decide)

/-- C6: every ChangeSet returned by `changed_files` — for any base and
either value of `all_files` — is deduplicated, stays within the
repository's root-relative tracked paths (so never contains an absolute
path when the VCS reports root-relative ones), and never contains a path
under the vendored subtree. -/
theorem changeset_invariants (repo : GitRepo) (vendored base : String)
    (all_files : Bool) (l : List String)
    (hok : changed_files repo vendored base all_files = CmdResult.ok l)
    (hrel : ∀ f ∈ repo.tracked, strHasPre "/" f = false) :
    l.Nodup ∧ (∀ p ∈ l, strHasPre vendored p = false) ∧
      ∀ p ∈ l, p ∈ repo.tracked ∧ strHasPre "/" p = false := by
  have hmem := changed_files_mem repo vendored base all_files l hok
  refine ⟨?_, fun p hp => (hmem p hp).2,
    fun p hp => ⟨(hmem p hp).1, hrel p (hmem p hp).1⟩⟩
  cases all_files with
  | true =>
    have hok' : (repo.tracked.filter (fun f => !(strHasPre vendored f))).dedup
        = l := by simpa [changed_files] using hok
    subst hok'
    exact List.nodup_dedup _
  | false =>
    by_cases hb : base ∈ repo.branches
    · have hok' : (repo.tracked.filter
          (fun f => repo.differs base f && !(strHasPre vendored f))).dedup
          = l := by simpa [changed_files, hb] using hok
      subst hok'
      exact List.nodup_dedup _
    · simp [changed_files, hb] at hok

theorem changeset_invariants_witness :
    ∃ l, changed_files sampleRepo sampleVendored "develop" false
        = CmdResult.ok l ∧
      (l.Nodup ∧ (∀ p ∈ l, strHasPre sampleVendored p = false) ∧
        ∀ p ∈ l, p ∈ sampleRepo.tracked ∧ strHasPre "/" p = false) :=
  ⟨["lib/a.py"], by decide,
    changeset_invariants sampleRepo sampleVendored "develop" false
      ["lib/a.py"] (by decide) (by decide)⟩

/-- C2: in one invocation each enabled tool runs regardless of the
others — the result recorded for a tool is a function of that tool and
the environment alone, every enabled tool contributes exactly one
result, and a tool whose executable is absent is recorded as a neutral
non-failing skip. -/
theorem run_tools_isolated (tenv : ToolEnv) (files : List String)
    (pre post : List String) (t : String) :
    run_tools tenv (pre ++ t :: post) files
      = run_tools tenv pre files
        ++ run_tool tenv files t :: run_tools tenv post files
    ∧ (run_tools tenv (pre ++ t :: post) files).length
        = (pre ++ t :: post).length
    ∧ (tenv.installed t = false →
        (run_tool tenv files t).status = ToolStatus.skipped ∧
        (run_tool tenv files t).succeeded = true) := by
  refine ⟨by simp [run_tools], by simp [run_tools], fun h => ?_⟩
  constructor
  · simp [run_tool, h]
  · simp [run_tool, h, ToolResult.succeeded]

theorem run_tools_isolated_witness :
    run_tools toolsNoMypy (["isort"] ++ "mypy" :: ["flake8"]) ["lib/a.py"]
      = run_tools toolsNoMypy ["isort"] ["lib/a.py"]
        ++ run_tool toolsNoMypy ["lib/a.py"] "mypy"
          :: run_tools toolsNoMypy ["flake8"] ["lib/a.py"]
    ∧ (run_tool toolsNoMypy ["lib/a.py"] "mypy").status = ToolStatus.skipped
    ∧ (run_tool toolsNoMypy ["lib/a.py"] "mypy").succeeded = true :=
  ⟨(run_tools_isolated toolsNoMypy ["lib/a.py"] ["isort"] ["flake8"]
      "mypy").1,
    (run_tools_isolated toolsNoMypy ["lib/a.py"] ["isort"] ["flake8"]
      "mypy").2.2 (by decide)⟩

/-- C4: when style checks fail, with `fail_on_error = false` the
invocation returns normally with a non-zero return-code attribute and
neither raises nor terminates the process; with `fail_on_error = true`
the non-zero status additionally terminates the process. -/
theorem exit_code_policy (repo : GitRepo) (tenv : ToolEnv)
    (vendored : String) (pymajor pyminor : Nat) (args : StyleArgs)
    (targets : List String)
    (hpy : pyTooOld pymajor pyminor = false)
    (ht : resolve_targets repo vendored args = CmdResult.ok targets)
    (hfail : any_failed (run_tools tenv (tool_names args.black) targets)
      = true) :
    (style_command repo tenv vendored pymajor pyminor args).returncode ≠ 0
    ∧ (style_command repo tenv vendored pymajor pyminor args).raised = false
    ∧ (args.fail_on_error = false →
        (style_command repo tenv vendored pymajor pyminor args).terminated
          = false)
    ∧ (args.fail_on_error = true →
        (style_command repo tenv vendored pymajor pyminor args).terminated
          = true) := by
  cases hfo : args.fail_on_error <;>
    simp [style_command, hpy, ht, hfail, hfo]

theorem exit_code_policy_witness :
    (style_command sampleRepo toolsAllFail sampleVendored 3 9
        sampleArgs).returncode ≠ 0
    ∧ (style_command sampleRepo toolsAllFail sampleVendored 3 9
        sampleArgs).raised = false
    ∧ (sampleArgs.fail_on_error = false →
        (style_command sampleRepo toolsAllFail sampleVendored 3 9
          sampleArgs).terminated = false)
    ∧ (sampleArgs.fail_on_error = true →
        (style_command sampleRepo toolsAllFail sampleVendored 3 9
          sampleArgs).terminated = true) :=
  exit_code_policy sampleRepo toolsAllFail sampleVendored 3 9 sampleArgs
    (sampleArgs.files.map (absolutize sampleArgs.root))
    (by decide) (by decide) (by decide)

/-- C10: on every interpreter older than 3.6, invoking the style
command with `fail_on_error` disabled completes without raising and
with a non-zero return code, rather than crashing. -/
theorem old_python_graceful (repo : GitRepo) (tenv : ToolEnv)
    (vendored : String) (pymajor pyminor : Nat) (args : StyleArgs)
    (hpy : pyTooOld pymajor pyminor = true)
    (hfoe : args.fail_on_error = false) :
    (style_command repo tenv vendored pymajor pyminor args).raised = false
    ∧ (style_command repo tenv vendored pymajor pyminor args).terminated
        = false
    ∧ (style_command repo tenv vendored pymajor pyminor args).returncode
        ≠ 0 := by
  simp [style_command, hpy, hfoe]

theorem old_python_graceful_witness :
    (style_command sampleRepo toolsAllPass sampleVendored 2 7
        sampleArgs).raised = false
    ∧ (style_command sampleRepo toolsAllPass sampleVendored 2 7
        sampleArgs).terminated = false
    ∧ (style_command sampleRepo toolsAllPass sampleVendored 2 7
        sampleArgs).returncode ≠ 0 :=
  old_python_graceful sampleRepo toolsAllPass sampleVendored 2 7
    sampleArgs (by decide) (by decide)

/-- C7: with one or more explicit file paths exactly those files are
checked — the resolved target set is the explicit paths (absolutized),
every explicit path is in it, nothing outside it (in particular no
changed file not listed) is in it, and every non-skipped tool is invoked
on exactly that set; with no explicit paths the ChangeSet is used. -/
theorem explicit_paths_exact (repo : GitRepo) (vendored : String)
    (tenv : ToolEnv) (args : StyleArgs) :
    (args.files ≠ [] →
      resolve_targets repo vendored args
        = CmdResult.ok (args.files.map (absolutize args.root))
      ∧ (∀ p ∈ args.files,
          absolutize args.root p ∈ args.files.map (absolutize args.root))
      ∧ (∀ c t, resolve_targets repo vendored args = CmdResult.ok t →
          absolutize args.root c ∉ args.files.map (absolutize args.root) →
          absolutize args.root c ∉ t)
      ∧ ∀ r ∈ run_tools tenv (tool_names args.black)
            (args.files.map (absolutize args.root)),
          r.status ≠ ToolStatus.skipped →
          r.files = args.files.map (absolutize args.root))
    ∧ (args.files = [] → ∀ l,
        changed_files repo vendored args.base false = CmdResult.ok l →
        resolve_targets repo vendored args
          = CmdResult.ok (l.map (absolutize args.root))) := by
  constructor
  · intro hne
    have hemp : args.files.isEmpty = false := by
      simpa [List.isEmpty_iff] using hne
    refine ⟨by simp [resolve_targets, hemp], ?_, ?_, ?_⟩
    · intro p hp
      exact List.mem_map_of_mem _ hp
    · intro c t hok hnotin
      have heq : args.files.map (absolutize args.root) = t := by
        simpa [resolve_targets, hemp] using hok
      rw [← heq]
      exact hnotin
    · intro r hr hstat
      simp only [run_tools, List.mem_map] at hr
      obtain ⟨name, _, rfl⟩ := hr
      by_cases hi : tenv.installed name = true
      · simp [run_tool, hi]
      · exact absurd (by simp [run_tool, hi]) hstat
  · intro hemp l hok
    simp [resolve_targets, hemp, hok]

theorem explicit_paths_exact_witness :
    resolve_targets sampleRepo sampleVendored sampleArgs
      = CmdResult.ok (sampleArgs.files.map (absolutize sampleArgs.root)) :=
  ((explicit_paths_exact sampleRepo sampleVendored toolsAllPass
    sampleArgs).1 (by decide)).1

/-- C8: with a `--root <dir>` override, every resolved file path and
every file set a tool is actually invoked on is scoped under `<dir>`,
observable as `<dir>`-based path prefixes. -/
theorem root_scoping (repo : GitRepo) (vendored : String) (tenv : ToolEnv)
    (args : StyleArgs) (t : List String)
    (hrel : ∀ p ∈ args.files, strHasPre "/" p = false)
    (htrack : ∀ f ∈ repo.tracked, strHasPre "/" f = false)
    (ht : resolve_targets repo vendored args = CmdResult.ok t) :
    (∀ p ∈ t, strHasPre (args.root ++ "/") p = true)
    ∧ ∀ r ∈ run_tools tenv (tool_names args.black) t,
        ∀ p ∈ r.files, strHasPre (args.root ++ "/") p = true := by
  have hmain : ∀ p ∈ t, strHasPre (args.root ++ "/") p = true := by
    by_cases hemp : args.files.isEmpty = true
    · cases hcf : changed_files repo vendored args.base false with
      | ok l =>
        have ht' : l.map (absolutize args.root) = t := by
          simpa [resolve_targets, hemp, hcf] using ht
        subst ht'
        intro p hp
        rw [List.mem_map] at hp
        obtain ⟨q, hq, rfl⟩ := hp
        have hqrel : strHasPre "/" q = false :=
          htrack q
            (changed_files_mem repo vendored args.base false l hcf q hq).1
        rw [absolutize_rel _ _ hqrel]
        exact strHasPre_append (args.root ++ "/") q
      | exit m c =>
        simp [resolve_targets, hemp, hcf] at ht
    · have hemp' : args.files.isEmpty = false := by
        simpa using hemp
      have ht' : args.files.map (absolutize args.root) = t := by
        simpa [resolve_targets, hemp'] using ht
      subst ht'
      intro p hp
      rw [List.mem_map] at hp
      obtain ⟨q, hq, rfl⟩ := hp
      rw [absolutize_rel _ _ (hrel q hq)]
      exact strHasPre_append (args.root ++ "/") q
  refine ⟨hmain, ?_⟩
  intro r hr p hp
  simp only [run_tools, List.mem_map] at hr
  obtain ⟨name, _, rfl⟩ := hr
  by_cases hi : tenv.installed name = true
  · simp only [run_tool, hi, if_true] at hp
    exact hmain p hp
  · simp [run_tool, hi] at hp

theorem root_scoping_witness :
    strHasPre (sampleArgsNoFiles.root ++ "/") "/repo/lib/a.py" = true :=
  (root_scoping sampleRepo sampleVendored toolsAllPass sampleArgsNoFiles
    ["/repo/lib/a.py"] (by decide) (by decide) (by decide)).1
    "/repo/lib/a.py" (by decide)

theorem reportContains_def (report : List String) (s : String) :
    reportContains report s ↔ ∃ line ∈ report, s.data <:+: line.data :=
  Iff.rfl

/-- C9: every tool's raw output appears verbatim as a line of the
report, and any unused-import finding of the style checker — of the
exact form `<path>: [F401] 'os' imported but unused` — that occurs in a
tool's output occurs as an exact contiguous segment of the report. -/
theorem tool_output_verbatim (targets : List String)
    (results : List ToolResult) :
    (∀ r ∈ results, r.output ∈ style_report targets results)
    ∧ ∀ r ∈ results, ∀ p : String,
        (flake8_unused_import p).data <:+: r.output.data →
        reportContains (style_report targets results)
          (flake8_unused_import p) := by
  have hmem : ∀ r ∈ results, r.output ∈ style_report targets results := by
    intro r hr
    have h1 : r.output ∈ results.map ToolResult.output :=
      List.mem_map_of_mem _ hr
    simp only [style_report, List.append_assoc, List.mem_append]
    exact Or.inr (Or.inl h1)
  refine ⟨hmem, ?_⟩
  intro r hr p hinf
  exact ⟨r.output, hmem r hr, hinf⟩

theorem tool_output_verbatim_witness :
    reportContains
      (style_report ["lib/spack/spack/dummy.py"]
        [⟨"flake8", ["lib/spack/spack/dummy.py"],
          flake8_unused_import "lib/spack/spack/dummy.py:7",
          ToolStatus.failed⟩])
      (flake8_unused_import "lib/spack/spack/dummy.py:7") :=
  (tool_output_verbatim ["lib/spack/spack/dummy.py"]
      [⟨"flake8", ["lib/spack/spack/dummy.py"],
        flake8_unused_import "lib/spack/spack/dummy.py:7",
        ToolStatus.failed⟩]).2
    ⟨"flake8", ["lib/spack/spack/dummy.py"],
      flake8_unused_import "lib/spack/spack/dummy.py:7",
      ToolStatus.failed⟩
    (by simp) "lib/spack/spack/dummy.py:7" (List.infix_refl _)

/-- C3: for any invocation whose tool outputs and file lines do not
themselves spell the verdict line, the report contains
`spack style checks were clean` exactly when every enabled tool's
result succeeded; otherwise it contains `spack style found errors`,
and it contains `black found errors` when the formatter specifically
found issues. -/
theorem style_report_verdict (targets : List String)
    (results : List ToolResult)
    (h : ∀ line ∈ targets ++ results.map ToolResult.output,
      ¬ (cleanMsg.data <:+: line.data)) :
    (reportContains (style_report targets results) cleanMsg ↔
      ∀ r ∈ results, r.succeeded = true)
    ∧ (any_failed results = true →
        reportContains (style_report targets results) errorsMsg)
    ∧ (black_failed results = true →
        reportContains (style_report targets results) blackErrorsMsg) := by
  have hceb : ¬ (cleanMsg.data <:+: errorsMsg.data) := by decide
  have hcbb : ¬ (cleanMsg.data <:+: blackErrorsMsg.data) := by decide
  by_cases hf : any_failed results = true
  · have hnotall : ¬ ∀ r ∈ results, r.succeeded = true := by
      intro hall
      have h0 := (succeeded_all_iff results).mpr hall
      rw [h0] at hf
      cases hf
    refine ⟨⟨?_, fun hall => absurd hall hnotall⟩, fun _ => ?_, fun hbf => ?_⟩
    · rw [reportContains_def]
      rintro ⟨line, hline, hinf⟩
      simp only [style_report, hf, if_true, List.append_assoc,
        List.mem_append] at hline
      rcases hline with h1 | h1 | h1
      · exact absurd hinf (h line (List.mem_append_left _ h1))
      · exact absurd hinf (h line (List.mem_append_right _ h1))
      · rcases h1 with h2 | h2
        · have hbl : line = blackErrorsMsg := by
            by_cases hbf : black_failed results = true
            · simpa [hbf] using h2
            · simp [hbf] at h2
          rw [hbl] at hinf
          exact (hcbb hinf).elim
        · have hel : line = errorsMsg := by simpa using h2
          rw [hel] at hinf
          exact (hceb hinf).elim
    · refine ⟨errorsMsg, ?_, List.infix_refl _⟩
      simp [style_report, hf]
    · refine ⟨blackErrorsMsg, ?_, List.infix_refl _⟩
      simp [style_report, hf, hbf]
  · have hf' : any_failed results = false := by simpa using hf
    refine ⟨⟨fun _ => (succeeded_all_iff results).mp hf', fun _ => ?_⟩,
      fun hc => ?_, fun hbf => ?_⟩
    · refine ⟨cleanMsg, ?_, List.infix_refl _⟩
      simp [style_report, hf']
    · rw [hf'] at hc
      cases hc
    · have h0 := any_failed_of_black results hbf
      rw [hf'] at h0
      cases h0

theorem style_report_verdict_witness :
    reportContains
      (style_report ["lib/a.py"]
        [⟨"flake8", ["lib/a.py"], "all good", ToolStatus.passed⟩])
      cleanMsg :=
  ((style_report_verdict ["lib/a.py"]
      [⟨"flake8", ["lib/a.py"], "all good", ToolStatus.passed⟩]
      (by decide)).1).mpr (by decide)

end SpackStyle
